import Mathlib

/-!
Shallow embedding of `src/async.h` (AsyncArduino): a cooperative task
scheduler for Arduino-class targets.  Machine integers (`unsigned long`,
32-bit on AVR) are modelled as `Nat`, with an explicit `% 2 ^ 32` at every
point where the C code can wrap.  Out-of-bounds array reads (undefined
behaviour in C) are modelled with `Option` / list defaults, as noted at
each definition.
-/

/-- Modulus of `unsigned long` on the AVR Arduino target (32-bit). -/
def ULONG_MOD : Nat := 2 ^ 32

/-- `#define MAX_FUNCTIONARRAY_SIZE 32` (src/async.h line 10). -/
def MAX_FUNCTIONARRAY_SIZE : Nat := 32

/-- The `function<F>` struct (src/async.h lines 40-71): a callback wrapper
with scheduling metadata.  Field defaults mirror the in-class initialisers
(`delay_time_us = 0`, `step = 1`, `id = 0`). -/
structure function (F : Type) where
  m_func : F
  delay_time_us : Nat := 0
  step : Nat := 1
  id : Nat := 0
deriving DecidableEq

instance [Inhabited F] : Inhabited (function F) :=
  ⟨{ m_func := default }⟩

/-- `function<F>::get_delay` (lines 135-141): microseconds by default,
integer-divided by 1000 for milliseconds. -/
def function.get_delay (f : function F) (microseconds : Bool := true) : Nat :=
  if microseconds then f.delay_time_us else f.delay_time_us / 1000

/-- `function<F>::set_delay` (lines 143-151).  The millisecond path
multiplies by 1000 in `unsigned long` arithmetic, hence the wrap. -/
def function.set_delay (f : function F) (delay : Nat)
    (microseconds : Bool := true) : function F :=
  if microseconds then { f with delay_time_us := delay }
  else { f with delay_time_us := (delay * 1000) % ULONG_MOD }

/-- `function<F>::getStep` (lines 153-156). -/
def function.getStep (f : function F) : Nat := f.step

/-- `function<F>::setStep` (lines 158-161). -/
def function.setStep (f : function F) (newSize : Nat) : function F :=
  { f with step := newSize }

/-- `function<F>::getId` (lines 163-166). -/
def function.getId (f : function F) : Nat := f.id

/-- `function<F>::setId` (lines 168-171). -/
def function.setId (f : function F) (newId : Nat) : function F :=
  { f with id := newId }

/-- `function<F>::swap` (lines 183-189): exchanges all four fields, i.e.
the two records trade places entirely. -/
def function.swap (a b : function F) : function F × function F := (b, a)

/-- Elementwise swap of two slots of the task array, as performed by
`tasks[i].swap(tasks[j])` in the C source.  Out-of-range indices read the
default element (such a read never happens at the call sites, which is
proved below). -/
def swapList [Inhabited α] (t : List α) (i j : Nat) : List α :=
  (t.set i (t.getD j default)).set j (t.getD i default)

/-- Delay of slot `i` of a task array, `tasks[i].get_delay()`. -/
def delayAt [Inhabited F] (t : List (function F)) (i : Nat) : Nat :=
  (t.getD i default).get_delay

/-- The `Async<F>` struct (lines 81-109): capacity `m_size`, live count
`curr_size`, backing array `tasks` (modelled as a list of length `m_size`
in every reachable state).  `m_permsize` is declared in the source but
never used. -/
structure Async (F : Type) where
  m_size : Nat := 1
  m_permsize : Nat := 1
  curr_size : Nat := 0
  tasks : List (function F)
deriving DecidableEq

/-- A freshly constructed `Async<F>`: `new function<F>[1]` holds one
default-constructed element. -/
def Async.init [Inhabited F] : Async F :=
  { tasks := [default] }

/-- `Async<F>::size` (lines 292-295). -/
def Async.size (s : Async F) : Nat := s.curr_size

/-- `Async<F>::max_size` (lines 287-290). -/
def Async.max_size (s : Async F) : Nat := s.m_size

/-- `Async<F>::getAll` (lines 282-285): the backing array. -/
def Async.getAll (s : Async F) : List (function F) := s.tasks

/-- `Async<F>::allocate` (lines 297-308): fresh default-initialised array
of `newSize`; the first `curr_size` old entries are copied over only when
the array grows. -/
def Async.allocate [Inhabited F] (s : Async F) (newSize : Nat) : Async F :=
  let newTasks : List (function F) :=
    if newSize > s.m_size then
      s.tasks.take s.curr_size ++ List.replicate (newSize - s.curr_size) default
    else List.replicate newSize default
  { s with tasks := newTasks, m_size := newSize }

/-- `Async<F>::deallocate` (lines 310-319): fresh array of `newSize`, the
first `newSize` old entries copied (the call site guarantees
`newSize < m_size`). -/
def Async.deallocate [Inhabited F] (s : Async F) (newSize : Nat) : Async F :=
  { s with tasks := s.tasks.take newSize, m_size := newSize }

/-- Inner scan of `Async<F>::sort` (lines 331-334): runs `iii` upward for
`k` steps, moving `smallestIndex` to any strictly smaller delay found. -/
def scanMin [Inhabited F] (t : List (function F)) : Nat → Nat → Nat → Nat
  | _iii, sI, 0 => sI
  | iii, sI, k + 1 =>
      scanMin t (iii + 1) (if delayAt t iii < delayAt t sI then iii else sI) k

/-- Outer loop of `Async<F>::sort` (lines 330-338) running for `k` more
iterations of `currentIndex = c`.  Note that `smallestIndex` (`sI`) is
carried over from one iteration to the next, exactly as in the source,
where it is declared outside the loop and never reset. -/
def selOuter [Inhabited F] (n : Nat) :
    List (function F) → Nat → Nat → Nat → List (function F)
  | t, _c, _sI, 0 => t
  | t, c, sI, k + 1 =>
      let sI2 := scanMin t c sI (n - c)
      let t2 := if c ≠ sI2 then swapList t c sI2 else t
      selOuter n t2 (c + 1) sI2 k

/-- `Async<F>::sort` (lines 321-339): early return on `curr_size == 0`,
otherwise the selection-sort-style double loop with `curr_size - 1` outer
iterations, starting at `currentIndex = 0`, `smallestIndex = 0`. -/
def Async.sort [Inhabited F] (s : Async F) : Async F :=
  if s.curr_size = 0 then s
  else { s with tasks := selOuter s.curr_size s.tasks 0 0 (s.curr_size - 1) }

/-- `Async<F>::add` (lines 244-253): silent no-op at the hard cap, double
the capacity when full, then write `tasks[curr_size++] = fw`. -/
def Async.add [Inhabited F] (s : Async F) (fw : function F) : Async F :=
  if s.curr_size ≥ MAX_FUNCTIONARRAY_SIZE then s
  else
    let s1 := if s.curr_size ≥ s.m_size then s.allocate (s.m_size * 2) else s
    { s1 with tasks := s1.tasks.set s1.curr_size fw,
              curr_size := s1.curr_size + 1 }

/-- `Async<F>::remove` (lines 255-272): silent no-op on an out-of-range
`int` index; otherwise `tasks[index]` is overwritten by the last live slot
(via `temp.swap`), `curr_size` decrements, the registry is re-sorted and
possibly shrunk. -/
def Async.remove [Inhabited F] (s : Async F) (index : Int) : Async F :=
  if index ≥ (s.curr_size : Int) then s
  else if index < 0 then s
  else
    let i := index.toNat
    let temp := s.tasks.getD (s.curr_size - 1) default
    let s1 : Async F :=
      { s with tasks := s.tasks.set i temp, curr_size := s.curr_size - 1 }
    let s2 := s1.sort
    if s2.curr_size < s2.m_size / 2 then s2.deallocate (s2.m_size / 2) else s2

/-- `Async<F>::get` (lines 274-280).  The source's guard reads
`if (index >= size)`, where `size` is the member function: the only
compilable intent (and the spec's reading) is `size()`, i.e. `curr_size`,
which is what we embed.  `tasks[curr_size - 1]` with `curr_size == 0` and
`tasks[index]` with `index < 0` are out-of-bounds reads (undefined
behaviour), modelled as `none`. -/
def Async.get (s : Async F) (index : Int) : Option (function F) :=
  if index ≥ (s.curr_size : Int) then
    if s.curr_size = 0 then none else s.tasks.get? (s.curr_size - 1)
  else if index < 0 then none
  else s.tasks.get? index.toNat

/-- `Async<F>::offsetDelayBy` (lines 235-242): every live slot's delay is
reduced by `offsetDelay`, clamped at zero by the explicit guard. -/
def Async.offsetDelayBy (s : Async F) (offsetDelay : Nat) : Async F :=
  { s with tasks :=
      (s.tasks.take s.curr_size).map (fun f =>
        if f.get_delay ≥ offsetDelay then f.set_delay (f.get_delay - offsetDelay)
        else f.set_delay 0)
      ++ s.tasks.drop s.curr_size }

/-- Callback type of the specialised run loop,
`unsigned long (*)(unsigned long, unsigned long)`, taking `(step, id)`. -/
def CB : Type := Nat → Nat → Nat

instance : Inhabited CB := ⟨fun _ _ => 0⟩

/-- The head-execution phase of one iteration of
`Async::run_until_complete` (lines 212-219): run `tasks[0]` with its
`(step, id)`, reschedule it (`r > 0`) or remove it (`r == 0`), then
re-sort.  The callback's C return value is an `unsigned long`, hence the
wrap; so is the incremented step. -/
def execHead (s : Async CB) : Async CB :=
  let t0 := s.tasks.getD 0 default
  let r := (t0.m_func t0.getStep t0.getId) % ULONG_MOD
  let s1 : Async CB :=
    if r > 0 then
      let t0a := t0.set_delay r
      { s with tasks := s.tasks.set 0 (t0a.setStep ((t0a.getStep + 1) % ULONG_MOD)) }
    else s.remove 0
  s1.sort

/-- One full iteration of the `while` body of `run_until_complete`
(lines 211-232), for a non-empty registry.  `e` is the oracle value of
`micros() - begin` (the elapsed execution time, an `unsigned long`).
Returns the new state together with the duration passed to `wait`, if
the sleeping branch was taken. -/
def runStep (s : Async CB) (e : Nat) : Async CB × Option Nat :=
  let s2 := execHead s
  if s2.curr_size = 0 then (s2, none)
  else
    let d := delayAt s2.tasks 0
    if e ≥ d then (s2.offsetDelayBy e, none)
    else (s2.offsetDelayBy (d - e), some (d - e))

/-- `Async::run_until_complete` (lines 208-233), fuel-bounded.  `es k` is
the elapsed-time oracle for the `k`-th iteration; the returned list
records the `step` value passed to the callback at each iteration, in
order.  When the fuel runs out the current state is returned as-is. -/
def run_until_complete (es : Nat → Nat) :
    Nat → Nat → Async CB → List Nat → Async CB × List Nat
  | _k, 0, s, trace => (s, trace)
  | k, fuel + 1, s, trace =>
      if s.curr_size = 0 then (s, trace)
      else
        let t0 := s.tasks.getD 0 default
        run_until_complete es (k + 1) fuel (runStep s (es k)).1
          (trace ++ [t0.getStep])

/-- States of the scheduler reachable from a freshly constructed
`Async` through its public operations. -/
inductive Reachable : Async CB → Prop
  | init : Reachable Async.init
  | add (s : Async CB) (f : function CB) : Reachable s → Reachable (s.add f)
  | remove (s : Async CB) (i : Int) : Reachable s → Reachable (s.remove i)
  | sort (s : Async CB) : Reachable s → Reachable s.sort
  | offsetDelayBy (s : Async CB) (x : Nat) :
      Reachable s → Reachable (s.offsetDelayBy x)
  | run (s : Async CB) (es : Nat → Nat) (k fuel : Nat) (trace : List Nat) :
      Reachable s → Reachable (run_until_complete es k fuel s trace).1

/-! ### Generic list lemmas used by the verification -/

lemma getD_take_of_lt [Inhabited α] (t : List α) {j n : Nat} (h : j < n) :
    (t.take n).getD j default = t.getD j default := by
  simp [List.getD_eq_getElem?_getD, List.getElem?_take_of_lt h]

lemma set_getD_self [Inhabited α] :
    ∀ (t : List α) (i : Nat), i < t.length → t.set i (t.getD i default) = t
  | _ :: _, 0, _ => rfl
  | x :: xs, i + 1, h => by
      simp only [List.getD_cons_succ, List.set_cons_succ]
      rw [set_getD_self xs i (by simpa using h)]

lemma getD_cons_set_perm [Inhabited α] :
    ∀ (xs : List α) (j : Nat), j < xs.length → ∀ a : α,
      List.Perm (xs.getD j default :: xs.set j a) (a :: xs)
  | y :: ys, 0, _, a => by
      simpa using List.Perm.swap a y ys
  | y :: ys, j + 1, h, a => by
      simp only [List.getD_cons_succ, List.set_cons_succ]
      refine (List.Perm.swap y _ _).trans ?_
      refine ((getD_cons_set_perm ys j (by simpa using h) a).cons y).trans ?_
      exact List.Perm.swap a y ys

lemma set_set_swap_perm [Inhabited α] :
    ∀ (t : List α) (i j : Nat), i < j → j < t.length →
      List.Perm ((t.set i (t.getD j default)).set j (t.getD i default)) t
  | x :: xs, 0, j + 1, _, hj => by
      simp only [List.getD_cons_succ, List.getD_cons_zero, List.set_cons_zero,
        List.set_cons_succ]
      exact getD_cons_set_perm xs j (by simpa using hj) x
  | x :: xs, i + 1, j + 1, hij, hj => by
      simp only [List.getD_cons_succ, List.set_cons_succ]
      exact (set_set_swap_perm xs i j (by omega) (by simpa using hj)).cons x

lemma swapList_perm [Inhabited α] (t : List α) {i j : Nat}
    (hi : i < t.length) (hj : j < t.length) : List.Perm (swapList t i j) t := by
  rcases lt_trichotomy i j with h | rfl | h
  · exact set_set_swap_perm t i j h hj
  · rw [swapList, List.set_set, set_getD_self t i hi]
  · rw [swapList, List.set_comm _ _ _ (by omega : i ≠ j)]
    exact set_set_swap_perm t j i h hi

@[simp] lemma length_swapList [Inhabited α] (t : List α) (i j : Nat) :
    (swapList t i j).length = t.length := by
  simp [swapList]

lemma take_swapList [Inhabited α] (t : List α) {i j n : Nat}
    (hi : i < n) (hj : j < n) :
    (swapList t i j).take n = swapList (t.take n) i j := by
  rw [swapList, swapList, List.set_take, List.set_take,
    getD_take_of_lt t hi, getD_take_of_lt t hj]

lemma drop_swapList [Inhabited α] (t : List α) {i j n : Nat}
    (hi : i < n) (hj : j < n) :
    (swapList t i j).drop n = t.drop n := by
  rw [swapList, List.drop_set, List.drop_set, if_pos hi, if_pos hj]

lemma set_perm_cons_eraseIdx [Inhabited α] (t : List α) {i : Nat}
    (h : i < t.length) (a : α) : List.Perm (t.set i a) (a :: t.eraseIdx i) := by
  rw [List.set_eq_take_append_cons_drop, if_pos h, List.eraseIdx_eq_take_drop_succ]
  exact List.perm_middle

/-! ### Lemmas about `sort`: it only permutes the live range -/

lemma delayAt_take [Inhabited F] (t : List (function F)) {i n : Nat} (h : i < n) :
    delayAt (t.take n) i = delayAt t i := by
  rw [delayAt, delayAt, getD_take_of_lt t h]

lemma scanMin_lt [Inhabited F] (t : List (function F)) {n : Nat} :
    ∀ k iii sI, sI < n → iii + k ≤ n → scanMin t iii sI k < n := by
  intro k
  induction k with
  | zero => intro iii sI h _; simpa [scanMin] using h
  | succ k ih =>
      intro iii sI h hk
      rw [scanMin]
      apply ih
      · split
        · omega
        · exact h
      · omega

lemma scanMin_take [Inhabited F] (t : List (function F)) {n : Nat} :
    ∀ k iii sI, iii + k ≤ n → sI < n →
      scanMin (t.take n) iii sI k = scanMin t iii sI k := by
  intro k
  induction k with
  | zero => intro _ _ _ _; simp [scanMin]
  | succ k ih =>
      intro iii sI hk h
      rw [scanMin, scanMin, delayAt_take t (show iii < n by omega),
        delayAt_take t h]
      apply ih
      · omega
      · split
        · omega
        · exact h

lemma length_selOuter [Inhabited F] (n : Nat) :
    ∀ k (t : List (function F)) c sI, (selOuter n t c sI k).length = t.length := by
  intro k
  induction k with
  | zero => intro t c sI; rfl
  | succ k ih =>
      intro t c sI
      rw [selOuter, ih]
      split <;> simp

lemma selOuter_perm [Inhabited F] (n : Nat) :
    ∀ k (t : List (function F)) c sI, sI < n → c + k ≤ n → n ≤ t.length →
      List.Perm (selOuter n t c sI k) t := by
  intro k
  induction k with
  | zero => intro t c sI _ _ _; exact List.Perm.refl t
  | succ k ih =>
      intro t c sI hsI hk hn
      rw [selOuter]
      have hsI2 : scanMin t c sI (n - c) < n :=
        scanMin_lt t _ _ _ hsI (by omega)
      refine (ih _ (c + 1) _ hsI2 (by omega) ?_).trans ?_
      · split <;> simpa using hn
      · split
        · exact swapList_perm t (by omega) (by omega)
        · exact List.Perm.refl t

lemma selOuter_take [Inhabited F] (n : Nat) :
    ∀ k (t : List (function F)) c sI, sI < n → c + k ≤ n → n ≤ t.length →
      selOuter n t c sI k = selOuter n (t.take n) c sI k ++ t.drop n := by
  intro k
  induction k with
  | zero => intro t c sI _ _ _; exact (List.take_append_drop n t).symm
  | succ k ih =>
      intro t c sI hsI hk hn
      rw [selOuter, selOuter, scanMin_take t _ _ _ (by omega) hsI]
      have hsI2 : scanMin t c sI (n - c) < n :=
        scanMin_lt t _ _ _ hsI (by omega)
      have hc : c < n := by omega
      rw [ih _ (c + 1) _ hsI2 (by omega) (by split <;> simpa using hn)]
      congr 1
      · congr 1
        split
        · exact take_swapList t hc hsI2
        · rfl
      · split
        · exact drop_swapList t hc hsI2
        · rfl

lemma sort_curr_size [Inhabited F] (s : Async F) : s.sort.curr_size = s.curr_size := by
  rw [Async.sort]; split <;> rfl

lemma sort_m_size [Inhabited F] (s : Async F) : s.sort.m_size = s.m_size := by
  rw [Async.sort]; split <;> rfl

lemma sort_length [Inhabited F] (s : Async F) :
    s.sort.tasks.length = s.tasks.length := by
  rw [Async.sort]
  split
  · rfl
  · exact length_selOuter _ _ _ _ _

lemma sort_tasks_eq [Inhabited F] (s : Async F) (h : s.curr_size ≤ s.tasks.length) :
    s.sort.tasks =
      selOuter s.curr_size (s.tasks.take s.curr_size) 0 0 (s.curr_size - 1)
        ++ s.tasks.drop s.curr_size := by
  rw [Async.sort]
  split
  · rename_i h0
    simp [h0, selOuter]
  · rename_i h0
    exact selOuter_take _ _ _ _ _ (by omega) (by omega) h

lemma sort_take [Inhabited F] (s : Async F) (h : s.curr_size ≤ s.tasks.length) :
    s.sort.tasks.take s.curr_size =
      selOuter s.curr_size (s.tasks.take s.curr_size) 0 0 (s.curr_size - 1) := by
  rw [sort_tasks_eq s h, List.take_left']
  rw [length_selOuter, List.length_take]
  omega

lemma sort_drop [Inhabited F] (s : Async F) (h : s.curr_size ≤ s.tasks.length) :
    s.sort.tasks.drop s.curr_size = s.tasks.drop s.curr_size := by
  rw [sort_tasks_eq s h, List.drop_left']
  rw [length_selOuter, List.length_take]
  omega

lemma sort_perm [Inhabited F] (s : Async F) (h : s.curr_size ≤ s.tasks.length) :
    List.Perm (s.sort.tasks.take s.curr_size) (s.tasks.take s.curr_size) := by
  rw [sort_take s h]
  rcases Nat.eq_zero_or_pos s.curr_size with h0 | h0
  · simp [h0, selOuter]
  · exact selOuter_perm _ _ _ _ _ h0 (by omega) (by simp; omega)

/-! ### Lemmas about `offsetDelayBy` -/

lemma get_delay_set_delay (f : function F) (d : Nat) :
    (f.set_delay d).get_delay = d := rfl

lemma set_delay_set_delay (f : function F) (a b : Nat) :
    (f.set_delay a).set_delay b = f.set_delay b := rfl

lemma offset_fun_eq (f : function F) (x : Nat) :
    (if f.get_delay ≥ x then f.set_delay (f.get_delay - x) else f.set_delay 0)
      = f.set_delay (f.get_delay - x) := by
  split
  · rfl
  · rename_i h
    rw [Nat.sub_eq_zero_of_le (by omega)]

lemma offsetDelayBy_tasks (s : Async F) (x : Nat) :
    (s.offsetDelayBy x).tasks =
      (s.tasks.take s.curr_size).map (fun f => f.set_delay (f.get_delay - x))
        ++ s.tasks.drop s.curr_size := by
  show _ ++ _ = _ ++ _
  congr 1
  apply List.map_congr_left
  intro f _
  exact offset_fun_eq f x

lemma offsetDelayBy_curr_size (s : Async F) (x : Nat) :
    (s.offsetDelayBy x).curr_size = s.curr_size := rfl

lemma offsetDelayBy_m_size (s : Async F) (x : Nat) :
    (s.offsetDelayBy x).m_size = s.m_size := rfl

lemma offsetDelayBy_length (s : Async F) (x : Nat) :
    (s.offsetDelayBy x).tasks.length = s.tasks.length := by
  rw [offsetDelayBy_tasks]
  simp only [List.length_append, List.length_map, List.length_take,
    List.length_drop]
  omega

lemma asyncExt {s1 s2 : Async F} (h1 : s1.m_size = s2.m_size)
    (h2 : s1.m_permsize = s2.m_permsize) (h3 : s1.curr_size = s2.curr_size)
    (h4 : s1.tasks = s2.tasks) : s1 = s2 := by
  cases s1; cases s2
  simp_all

lemma offsetDelayBy_offsetDelayBy (s : Async F) (x1 x2 : Nat) :
    (s.offsetDelayBy x1).offsetDelayBy x2 = s.offsetDelayBy (x1 + x2) := by
  have h4 : ((s.offsetDelayBy x1).offsetDelayBy x2).tasks
      = (s.offsetDelayBy (x1 + x2)).tasks := by
    rw [offsetDelayBy_tasks, offsetDelayBy_tasks, offsetDelayBy_tasks,
      offsetDelayBy_curr_size]
    rcases le_or_lt s.curr_size s.tasks.length with hn | hn
    · rw [List.take_left' (by simp [List.length_take]; omega),
        List.drop_left' (by simp [List.length_take]; omega), List.map_map]
      congr 1
      apply List.map_congr_left
      intro f _
      simp only [Function.comp_apply, get_delay_set_delay, set_delay_set_delay,
        Nat.sub_sub]
    · have h1 : s.tasks.take s.curr_size = s.tasks :=
        List.take_of_length_le (by omega)
      have h2 : s.tasks.drop s.curr_size = [] :=
        List.drop_eq_nil_of_le (by omega)
      rw [h1, h2, List.append_nil, List.append_nil,
        List.take_of_length_le (by simp; omega),
        List.drop_eq_nil_of_le (by simp; omega), List.map_map, List.append_nil]
      apply List.map_congr_left
      intro f _
      simp only [Function.comp_apply, get_delay_set_delay, set_delay_set_delay,
        Nat.sub_sub]
  exact asyncExt rfl rfl rfl h4

lemma offsetDelayBy_delayAt [Inhabited F] (s : Async F) (x : Nat) {i : Nat}
    (hi : i < s.curr_size) (hl : i < s.tasks.length) :
    delayAt (s.offsetDelayBy x).tasks i = delayAt s.tasks i - x := by
  rw [offsetDelayBy_tasks, delayAt, delayAt, List.getD_eq_getElem?_getD,
    List.getElem?_append_left (by simp [List.length_take]; omega),
    List.getElem?_map, List.getElem?_take_of_lt hi,
    List.getElem?_eq_getElem hl]
  simp [get_delay_set_delay, List.getD_eq_getElem?_getD,
    List.getElem?_eq_getElem hl]

/-! ### Lemmas about `add` -/

lemma add_at_cap [Inhabited F] (s : Async F) (f : function F)
    (h : 32 ≤ s.curr_size) : s.add f = s := by
  rw [Async.add, if_pos]
  show 32 ≤ s.curr_size
  exact h

lemma allocate_curr_size (s : Async F) (newSize : Nat) [Inhabited F] :
    (s.allocate newSize).curr_size = s.curr_size := rfl

lemma add_curr_size [Inhabited F] (s : Async F) (f : function F)
    (h : s.curr_size < 32) :
    (s.add f).curr_size = s.curr_size + 1 := by
  rw [Async.add, if_neg (by show ¬ 32 ≤ s.curr_size; omega)]
  split <;> rfl

lemma foldl_add_curr_size [Inhabited F] (fs : List (function F)) :
    ∀ s : Async F, s.curr_size + fs.length ≤ 32 →
      (fs.foldl Async.add s).curr_size = s.curr_size + fs.length := by
  induction fs with
  | nil => intro s _; simp
  | cons f fs ih =>
      intro s h
      simp only [List.foldl_cons, List.length_cons] at h ⊢
      rw [ih _ (by rw [add_curr_size s f (by omega)]; omega),
        add_curr_size s f (by omega)]
      omega

/-! ### Lemmas about `remove` -/

lemma remove_eq [Inhabited F] (s : Async F) {i : Nat} (h : i < s.curr_size) :
    s.remove i =
      (let s1 : Async F :=
        { s with
          tasks := s.tasks.set i (s.tasks.getD (s.curr_size - 1) default),
          curr_size := s.curr_size - 1 }
       let s2 := s1.sort
       if s2.curr_size < s2.m_size / 2 then s2.deallocate (s2.m_size / 2)
       else s2) := by
  rw [Async.remove, if_neg (by omega), if_neg (by omega)]
  simp

lemma remove_curr_size [Inhabited F] (s : Async F) {i : Nat}
    (h : i < s.curr_size) :
    (s.remove (i : Int)).curr_size = s.curr_size - 1 := by
  rw [remove_eq s h]
  simp only []
  split
  · show (Async.deallocate _ _).curr_size = _
    show (Async.sort _).curr_size = _
    rw [sort_curr_size]
  · rw [sort_curr_size]

lemma remove_perm [Inhabited F] (s : Async F) {i : Nat} (h : i < s.curr_size)
    (hlen : s.curr_size ≤ s.tasks.length) :
    List.Perm ((s.remove (i : Int)).tasks.take (s.curr_size - 1))
      ((s.tasks.take s.curr_size).eraseIdx i) := by
  rw [remove_eq s h]
  simp only []
  set b := s.tasks.getD (s.curr_size - 1) default with hb
  set s1 : Async F :=
    { s with tasks := s.tasks.set i b, curr_size := s.curr_size - 1 } with hs1
  have hlen1 : s1.curr_size ≤ s1.tasks.length := by
    simp only [hs1, List.length_set]
    omega
  have hcurr1 : s1.curr_size = s.curr_size - 1 := rfl
  have hstep1 :
      List.Perm (s1.sort.tasks.take (s.curr_size - 1))
        ((s.tasks.take s.curr_size).eraseIdx i) := by
    refine (sort_perm s1 hlen1).trans ?_
    show List.Perm ((s.tasks.set i b).take (s.curr_size - 1)) _
    rw [List.set_take]
    have hP : (s.tasks.take (s.curr_size - 1)).length = s.curr_size - 1 := by
      rw [List.length_take]; omega
    have hL : s.tasks.take s.curr_size
        = s.tasks.take (s.curr_size - 1) ++ [b] := by
      have hn1 : s.curr_size - 1 < s.tasks.length := by omega
      rw [show s.curr_size = (s.curr_size - 1) + 1 by omega, List.take_succ,
        List.getElem?_eq_getElem hn1]
      simp [hb, List.getD_eq_getElem?_getD, List.getElem?_eq_getElem hn1]
    rcases Nat.lt_or_ge i (s.curr_size - 1) with hi | hi
    · rw [hL, List.eraseIdx_append_of_lt_length (by omega)]
      refine (set_perm_cons_eraseIdx _ (by omega) b).trans ?_
      exact (List.perm_append_singleton _ _).symm
    · have hieq : i = s.curr_size - 1 := by omega
      rw [List.set_eq_of_length_le (by omega), hL, hieq,
        List.eraseIdx_append_of_length_le (by omega)]
      simp [Nat.min_eq_left (show s.curr_size - 1 ≤ s.tasks.length by omega)]
  split
  · rename_i hshrink
    show List.Perm ((s1.sort.tasks.take (s1.sort.m_size / 2)).take
      (s.curr_size - 1)) _
    rw [List.take_take, Nat.min_eq_left (by
      rw [sort_curr_size] at hshrink
      rw [sort_m_size] at hshrink ⊢
      omega)]
    exact hstep1
  · exact hstep1

/-! ### Lemmas about the run loop -/

lemma run_terminal (es : Nat → Nat) (k fuel : Nat) (s : Async CB)
    (tr : List Nat) (h : s.curr_size = 0) :
    run_until_complete es k fuel s tr = (s, tr) := by
  cases fuel <;> simp [run_until_complete, h]

lemma run_unfold (es : Nat → Nat) (k fuel : Nat) (s : Async CB)
    (tr : List Nat) (h : s.curr_size ≠ 0) :
    run_until_complete es k (fuel + 1) s tr =
      run_until_complete es (k + 1) fuel (runStep s (es k)).1
        (tr ++ [(s.tasks.getD 0 default).getStep]) := by
  simp [run_until_complete, h]

lemma runStep_single_done (f : function CB) (e : Nat)
    (h : f.m_func f.step f.id % ULONG_MOD = 0) :
    runStep { m_size := 1, curr_size := 1, tasks := [f] } e
      = ({ m_size := 1, curr_size := 0, tasks := [f] }, none) := by
  simp [runStep, execHead, Async.remove, Async.sort, Async.deallocate,
    function.getStep, function.getId, h]

lemma runStep_single_again (f : function CB) (e r : Nat)
    (h : f.m_func f.step f.id % ULONG_MOD = r) (hr : r ≠ 0) :
    runStep { m_size := 1, curr_size := 1, tasks := [f] } e
      = ({ m_size := 1, curr_size := 1,
           tasks := [{ m_func := f.m_func,
                       delay_time_us := if e ≥ r then 0 else e,
                       step := (f.step + 1) % ULONG_MOD, id := f.id }] },
         if e ≥ r then none else some (r - e)) := by
  have hstate : execHead { m_size := 1, curr_size := 1, tasks := [f] }
      = { m_size := 1, curr_size := 1,
          tasks := [{ m_func := f.m_func, delay_time_us := r,
                      step := (f.step + 1) % ULONG_MOD, id := f.id }] } := by
    simp [execHead, Async.sort, selOuter, function.getStep, function.getId,
      function.set_delay, function.setStep, h, Nat.pos_of_ne_zero hr]
  rw [runStep, hstate]
  rcases Nat.lt_or_ge e r with he | he
  · have h1 : ¬ (e ≥ r) := by omega
    have h2 : r - (r - e) = e := by omega
    have h3 : r ≥ r - e := by omega
    simp [delayAt, Async.offsetDelayBy, function.get_delay,
      function.set_delay, h1, h2, h3]
  · have h2 : r - e = 0 := by omega
    simp [delayAt, Async.offsetDelayBy, function.get_delay,
      function.set_delay, he, h2]

/-! ### The size/capacity invariant -/

/-- The registry invariant of the design: live count within capacity,
capacity a power of two within the hard cap, backing array exactly
`m_size` slots. -/
def RegInv (s : Async F) : Prop :=
  s.curr_size ≤ s.m_size ∧ s.m_size ≤ 32 ∧ (∃ k, s.m_size = 2 ^ k) ∧
    s.tasks.length = s.m_size

lemma pow2_le_16 {k : Nat} (h : 2 ^ k ≤ 31) : 2 ^ k ≤ 16 := by
  rcases Nat.lt_or_ge k 5 with h5 | h5
  · interval_cases k <;> norm_num
  · exfalso
    have h32 : (2 : Nat) ^ 5 ≤ 2 ^ k := Nat.pow_le_pow_right (by norm_num) h5
    norm_num at h32
    omega

lemma inv_init [Inhabited F] : RegInv (Async.init : Async F) := by
  refine ⟨?_, ?_, ⟨0, rfl⟩, ?_⟩ <;> simp [Async.init]

lemma inv_sort [Inhabited F] (s : Async F) (h : RegInv s) : RegInv s.sort := by
  obtain ⟨h1, h2, h3, h4⟩ := h
  refine ⟨?_, ?_, ?_, ?_⟩
  · rw [sort_curr_size, sort_m_size]; exact h1
  · rw [sort_m_size]; exact h2
  · rw [sort_m_size]; exact h3
  · rw [sort_length, sort_m_size]; exact h4

lemma inv_offsetDelayBy (s : Async F) (x : Nat) (h : RegInv s) :
    RegInv (s.offsetDelayBy x) := by
  obtain ⟨h1, h2, h3, h4⟩ := h
  exact ⟨h1, h2, h3, by rw [offsetDelayBy_length]; exact h4⟩

lemma inv_add [Inhabited F] (s : Async F) (f : function F) (h : RegInv s) :
    RegInv (s.add f) := by
  obtain ⟨h1, h2, ⟨k, hk⟩, h4⟩ := h
  rw [Async.add]
  split
  · exact ⟨h1, h2, ⟨k, hk⟩, h4⟩
  · rename_i hcap
    have hcap31 : s.curr_size ≤ 31 := by
      simp only [MAX_FUNCTIONARRAY_SIZE, ge_iff_le, not_le] at hcap
      omega
    split
    · rename_i hfull
      have hcm : s.curr_size = s.m_size := Nat.le_antisymm h1 hfull
      have hm1 : 1 ≤ s.m_size := by rw [hk]; exact Nat.one_le_two_pow
      have hm16 : s.m_size ≤ 16 := by rw [hk]; exact pow2_le_16 (by omega)
      refine ⟨?_, ?_, ⟨k + 1, ?_⟩, ?_⟩
      · show s.curr_size + 1 ≤ s.m_size * 2
        omega
      · show s.m_size * 2 ≤ 32
        omega
      · show s.m_size * 2 = 2 ^ (k + 1)
        rw [hk, pow_succ]
      · show ((s.allocate (s.m_size * 2)).tasks.set _ f).length = s.m_size * 2
        rw [List.length_set, Async.allocate]
        simp only [gt_iff_lt, if_pos (by omega : s.m_size < s.m_size * 2)]
        simp only [List.length_append, List.length_take, List.length_replicate]
        omega
    · rename_i hnotfull
      refine ⟨?_, h2, ⟨k, hk⟩, ?_⟩
      · show s.curr_size + 1 ≤ s.m_size
        omega
      · show (s.tasks.set s.curr_size f).length = s.m_size
        rw [List.length_set]
        exact h4

lemma inv_deallocate [Inhabited F] (s : Async F) {newSize : Nat}
    (hle : newSize ≤ s.m_size) (hcurr : s.curr_size ≤ newSize)
    (hpow : ∃ k, newSize = 2 ^ k) (h : RegInv s) : RegInv (s.deallocate newSize) := by
  obtain ⟨h1, h2, h3, h4⟩ := h
  refine ⟨hcurr, ?_, hpow, ?_⟩
  · show newSize ≤ 32
    omega
  · show (s.tasks.take newSize).length = newSize
    rw [List.length_take]
    omega

lemma inv_remove [Inhabited F] (s : Async F) (i : Int) (h : RegInv s) :
    RegInv (s.remove i) := by
  obtain ⟨h1, h2, ⟨k, hk⟩, h4⟩ := h
  rw [Async.remove]
  split
  · exact ⟨h1, h2, ⟨k, hk⟩, h4⟩
  · split
    · exact ⟨h1, h2, ⟨k, hk⟩, h4⟩
    · simp only []
      set s1 : Async F :=
        { s with
          tasks := s.tasks.set i.toNat (s.tasks.getD (s.curr_size - 1) default),
          curr_size := s.curr_size - 1 } with hs1def
      have hc1 : s1.curr_size = s.curr_size - 1 := rfl
      have hm1 : s1.m_size = s.m_size := rfl
      have hl1 : s1.tasks.length = s.m_size := by
        show (s.tasks.set _ _).length = s.m_size
        rw [List.length_set]
        exact h4
      have hs1 : RegInv s1 := ⟨by omega, by omega, ⟨k, by omega⟩, by omega⟩
      obtain ⟨g1, g2, g3, g4⟩ := inv_sort _ hs1
      have hcs : s1.sort.curr_size = s.curr_size - 1 := by
        rw [sort_curr_size, hc1]
      have hms : s1.sort.m_size = s.m_size := by
        rw [sort_m_size, hm1]
      split
      · rename_i hshr
        rw [hcs, hms] at hshr
        have hk1 : 1 ≤ k := by
          by_contra hc
          have hk0 : k = 0 := by omega
          rw [hk0] at hk
          norm_num at hk
          omega
        apply inv_deallocate
        · rw [hms]
          omega
        · rw [hcs, hms]
          omega
        · obtain ⟨k3, rfl⟩ : ∃ k3, k = k3 + 1 := ⟨k - 1, by omega⟩
          exact ⟨k3, by rw [hms, hk, pow_succ]; omega⟩
        · exact ⟨g1, g2, g3, g4⟩
      · exact ⟨g1, g2, g3, g4⟩

lemma inv_execHead (s : Async CB) (h : RegInv s) : RegInv (execHead s) := by
  rw [execHead]
  apply inv_sort
  split
  · obtain ⟨h1, h2, h3, h4⟩ := h
    exact ⟨h1, h2, h3, by rw [List.length_set]; exact h4⟩
  · exact inv_remove s 0 h

lemma inv_runStep (s : Async CB) (e : Nat) (h : RegInv s) :
    RegInv (runStep s e).1 := by
  rw [runStep]
  have h2 := inv_execHead s h
  dsimp only
  split
  · exact h2
  · split
    · exact inv_offsetDelayBy _ _ h2
    · exact inv_offsetDelayBy _ _ h2

lemma inv_run (es : Nat → Nat) :
    ∀ fuel k (s : Async CB) tr, RegInv s →
      RegInv (run_until_complete es k fuel s tr).1 := by
  intro fuel
  induction fuel with
  | zero => intro k s tr h; exact h
  | succ fuel ih =>
      intro k s tr h
      rw [run_until_complete]
      split
      · exact h
      · exact ih _ _ _ (inv_runStep s _ h)

/-! ### Concrete fixtures used by counterexamples and witnesses -/

/-- A task with an opaque callback tag, used for concrete registries. -/
def mkTask (d : Nat) : function Nat := { m_func := 0, delay_time_us := d }

/-- Concrete registry: live delays `[1, 3, 2]`, capacity 4. -/
def sortEx : Async Nat :=
  { m_size := 4, curr_size := 3,
    tasks := [mkTask 1, mkTask 3, mkTask 2, mkTask 0] }

/-- Concrete registry with two live tasks, used for `get`. -/
def getEx : Async Nat :=
  { m_size := 2, curr_size := 2, tasks := [mkTask 7, mkTask 9] }

/-- Callback that always asks to be rescheduled after 300 microseconds. -/
def cbRet300 : CB := fun _ _ => 300

/-- Callback that always reports completion. -/
def cbRet0 : CB := fun _ _ => 0

/-- Concrete scheduler for the run-loop counterexample: the head task
reschedules itself 300 microseconds out, the other task is due in 200. -/
def runEx : Async CB :=
  { m_size := 2, curr_size := 2,
    tasks := [{ m_func := cbRet300, delay_time_us := 999 },
              { m_func := cbRet0, delay_time_us := 200 }] }

/-- Callback of end-to-end scenario 2: 500 on steps 1-3, 0 on step 4. -/
def cbScen : CB := fun s _ => if s < 4 then 500 else 0

/-- An arbitrary callback used to exhibit a reachable state. -/
def cbZero : function CB := { m_func := fun _ _ => 0 }

/-! ### The claims -/

/-- C1: the claim says that after any single call to `sort()` the live
range is sorted ascending by delay.  The code violates this: on live
delays `[1, 3, 2]` a single `sort()` produces `[3, 1, 2]`, which is not
ascending — `smallestIndex` is never reset to `currentIndex`, so the
second outer iteration compares against the stale minimum `tasks[0]` and
swaps the true minimum away from slot 0. -/
theorem C1_sort_unsorted_on_1_3_2 :
    ((sortEx.sort.tasks.take sortEx.sort.curr_size).map
        (fun f => f.get_delay)) = [3, 1, 2] ∧
      0 + 1 < sortEx.sort.curr_size ∧
      ¬ delayAt sortEx.sort.tasks 0 ≤ delayAt sortEx.sort.tasks (0 + 1) := by
  decide

/-- C4: the claim says `sort()` is idempotent.  On live delays
`[1, 3, 2]` one call yields `[3, 1, 2]` and a second call yields
`[1, 2, 3]`, so the n-th and (n+1)-st results differ. -/
theorem C4_sort_not_idempotent :
    ((sortEx.sort.tasks.map (fun f => f.get_delay)) = [3, 1, 2, 0] ∧
      (sortEx.sort.sort.tasks.map (fun f => f.get_delay)) = [1, 2, 3, 0]) ∧
      sortEx.sort.sort ≠ sortEx.sort := by decide

/-- C10: `sort()` only permutes the live range: `curr_size` and `m_size`
are unchanged, the live prefix of the result is a permutation of the live
prefix of the input, the slots at indices `≥ curr_size` are untouched,
and the result is computed from the live prefix alone (the final conjunct
factors the result through `tasks.take curr_size`, so no slot at an index
`≥ curr_size` is ever read or written). -/
theorem C10_sort_permutes [Inhabited F] (s : Async F)
    (h : s.curr_size ≤ s.tasks.length) :
    s.sort.curr_size = s.curr_size ∧ s.sort.m_size = s.m_size ∧
    List.Perm (s.sort.tasks.take s.curr_size) (s.tasks.take s.curr_size) ∧
    s.sort.tasks.drop s.curr_size = s.tasks.drop s.curr_size ∧
    s.sort.tasks = selOuter s.curr_size (s.tasks.take s.curr_size) 0 0
      (s.curr_size - 1) ++ s.tasks.drop s.curr_size :=
  ⟨sort_curr_size s, sort_m_size s, sort_perm s h, sort_drop s h,
    sort_tasks_eq s h⟩

/-- Witness for C10 at the concrete registry `sortEx`. -/
theorem C10_sort_permutes_witness :
    sortEx.sort.curr_size = sortEx.curr_size ∧
    sortEx.sort.m_size = sortEx.m_size ∧
    List.Perm (sortEx.sort.tasks.take sortEx.curr_size)
      (sortEx.tasks.take sortEx.curr_size) ∧
    sortEx.sort.tasks.drop sortEx.curr_size
      = sortEx.tasks.drop sortEx.curr_size ∧
    sortEx.sort.tasks = selOuter sortEx.curr_size
      (sortEx.tasks.take sortEx.curr_size) 0 0 (sortEx.curr_size - 1)
      ++ sortEx.tasks.drop sortEx.curr_size :=
  C10_sort_permutes sortEx (by decide)

/-- C6: removing a valid index `i` from a registry of `n` live tasks
leaves `n - 1` live tasks, and the live multiset is exactly the original
live multiset minus the task previously at index `i`. -/
theorem C6_remove_erases [Inhabited F] (s : Async F) (i : Nat)
    (h : i < s.curr_size) (hlen : s.curr_size ≤ s.tasks.length) :
    (s.remove (i : Int)).size = s.size - 1 ∧
    List.Perm ((s.remove (i : Int)).tasks.take ((s.remove (i : Int)).curr_size))
      ((s.tasks.take s.curr_size).eraseIdx i) := by
  have hc := remove_curr_size s h
  refine ⟨hc, ?_⟩
  rw [show (s.remove (i : Int)).curr_size = s.curr_size - 1 from hc]
  exact remove_perm s h hlen

/-- Witness for C6: remove index 0 from the concrete registry `sortEx`. -/
theorem C6_remove_erases_witness :
    (sortEx.remove ((0 : Nat) : Int)).size = sortEx.size - 1 ∧
    List.Perm
      ((sortEx.remove ((0 : Nat) : Int)).tasks.take
        ((sortEx.remove ((0 : Nat) : Int)).curr_size))
      ((sortEx.tasks.take sortEx.curr_size).eraseIdx 0) :=
  C6_remove_erases sortEx 0 (by decide) (by decide)

/-- C5: a sequence of `MAX_CAPACITY + 1 = 33` adds ends with exactly
`size() = 32`; the fold over all 33 equals the fold over the first 32
(the extra add is a complete no-op on the state), and in general any add
at or above the cap returns the state unchanged. -/
theorem C5_capacity [Inhabited F] (fs : List (function F))
    (h : fs.length = MAX_FUNCTIONARRAY_SIZE + 1) :
    (fs.foldl Async.add Async.init).size = MAX_FUNCTIONARRAY_SIZE ∧
    fs.foldl Async.add Async.init
      = (fs.take MAX_FUNCTIONARRAY_SIZE).foldl Async.add Async.init ∧
    ∀ (s : Async F) (f : function F), MAX_FUNCTIONARRAY_SIZE ≤ s.curr_size →
      s.add f = s := by
  have h33 : fs.length = 33 := h
  have hne : fs ≠ [] := by
    intro hnil
    rw [hnil] at h33
    simp at h33
  have hsplit : fs = fs.dropLast ++ [fs.getLast hne] :=
    (List.dropLast_append_getLast hne).symm
  have hdl : fs.dropLast = fs.take 32 := by
    rw [List.dropLast_eq_take, h33]
  have hlen32 : (fs.take 32).length = 32 := by
    rw [List.length_take, h33]
    omega
  have hcurr32 : ((fs.take 32).foldl Async.add Async.init).curr_size = 32 := by
    have h0 : (Async.init : Async F).curr_size = 0 := rfl
    rw [foldl_add_curr_size (fs.take 32) Async.init (by omega), h0, hlen32]
  have hfold : fs.foldl Async.add Async.init
      = (fs.take MAX_FUNCTIONARRAY_SIZE).foldl Async.add Async.init := by
    conv_lhs => rw [hsplit]
    rw [List.foldl_append, hdl, List.foldl_cons, List.foldl_nil]
    exact add_at_cap _ _ (by rw [hcurr32])
  refine ⟨?_, hfold, ?_⟩
  · rw [Async.size, hfold]
    exact hcurr32
  · intro s f hcap
    exact add_at_cap s f hcap

/-- Witness for C5: 33 copies of a concrete task. -/
theorem C5_capacity_witness :
    ((List.replicate 33 (mkTask 5)).foldl Async.add Async.init).size
        = MAX_FUNCTIONARRAY_SIZE ∧
    (List.replicate 33 (mkTask 5)).foldl Async.add Async.init
      = ((List.replicate 33 (mkTask 5)).take
          MAX_FUNCTIONARRAY_SIZE).foldl Async.add Async.init ∧
    ∀ (s : Async Nat) (f : function Nat),
      MAX_FUNCTIONARRAY_SIZE ≤ s.curr_size → s.add f = s :=
  C5_capacity (List.replicate 33 (mkTask 5)) (by decide)

/-- C9: offsetting delays twice by `x1` then `x2` is the same state as
offsetting once by `x1 + x2`, and a live task with delay `d` ends with
delay `d - (x1 + x2)` clamped at zero (`Nat` truncated subtraction). -/
theorem C9_offset_additive [Inhabited F] (s : Async F) (x1 x2 : Nat) :
    (s.offsetDelayBy x1).offsetDelayBy x2 = s.offsetDelayBy (x1 + x2) ∧
    ∀ i, i < s.curr_size → i < s.tasks.length →
      delayAt (s.offsetDelayBy (x1 + x2)).tasks i
        = delayAt s.tasks i - (x1 + x2) := by
  refine ⟨offsetDelayBy_offsetDelayBy s x1 x2, ?_⟩
  intro i hi hl
  exact offsetDelayBy_delayAt s (x1 + x2) hi hl

/-- Witness for C9 at the concrete registry `sortEx`, `x1 = x2 = 1`. -/
theorem C9_offset_additive_witness :
    (sortEx.offsetDelayBy 1).offsetDelayBy 1 = sortEx.offsetDelayBy (1 + 1) ∧
    delayAt (sortEx.offsetDelayBy (1 + 1)).tasks 0
      = delayAt sortEx.tasks 0 - (1 + 1) := by
  obtain ⟨a, b⟩ := C9_offset_additive sortEx 1 1
  exact ⟨a, b 0 (by decide) (by decide)⟩

/-- C7: the claim says `get(index)` returns the last live task for every
out-of-range index, including negative ones.  In the source a negative
index passes the (intended) `index >= size()` guard and reaches
`tasks[index]`, an out-of-bounds read (modelled `none`), not the last
task: at the two-task registry `getEx`, `get(-1)` does not yield the last
live task. -/
theorem C7_get_negative_counterexample :
    1 ≤ getEx.curr_size ∧ getEx.get (-1) = none ∧
      getEx.get (-1) ≠ some (getEx.tasks.getD (getEx.curr_size - 1) default) := by
  decide

/-- C7 (amended): for a registry with `curr_size ≥ 1`, `get(index)`
returns a copy of the task at `index` when `0 ≤ index < curr_size`, a
copy of the last live task when `index ≥ curr_size`, and performs an
out-of-bounds read (modelled `none`) when `index < 0`. -/
theorem C7_get_amended [Inhabited F] (s : Async F) (h1 : 1 ≤ s.curr_size)
    (h2 : s.curr_size ≤ s.tasks.length) (index : Int) :
    (0 ≤ index → index < (s.curr_size : Int) →
      s.get index = some (s.tasks.getD index.toNat default)) ∧
    ((s.curr_size : Int) ≤ index →
      s.get index = some (s.tasks.getD (s.curr_size - 1) default)) ∧
    (index < 0 → s.get index = none) := by
  refine ⟨?_, ?_, ?_⟩
  · intro hge hlt
    rw [Async.get, if_neg (by omega), if_neg (by omega)]
    have hx : index.toNat < s.tasks.length := by omega
    rw [List.get?_eq_getElem?, List.getElem?_eq_getElem hx]
    congr 1
    rw [List.getD_eq_getElem?_getD, List.getElem?_eq_getElem hx]
    rfl
  · intro hge
    rw [Async.get, if_pos (by omega), if_neg (by omega)]
    have hx : s.curr_size - 1 < s.tasks.length := by omega
    rw [List.get?_eq_getElem?, List.getElem?_eq_getElem hx]
    congr 1
    rw [List.getD_eq_getElem?_getD, List.getElem?_eq_getElem hx]
    rfl
  · intro hneg
    rw [Async.get, if_neg (by omega), if_pos hneg]

/-- Witness for C7 (amended): out-of-range index 5 on `getEx` yields the
last live task. -/
theorem C7_get_amended_witness :
    getEx.get 5 = some (getEx.tasks.getD (getEx.curr_size - 1) default) :=
  (C7_get_amended getEx (by decide) (by decide) 5).2.1 (by decide)

/-- C8: every reachable scheduler state satisfies
`0 ≤ curr_size ≤ m_size ≤ MAX_CAPACITY = 32` with `m_size` a power of
two, hence `size() ≤ max_size()`. -/
theorem C8_reachable_invariant (s : Async CB) (h : Reachable s) :
    0 ≤ s.curr_size ∧ s.curr_size ≤ s.m_size ∧
      s.m_size ≤ MAX_FUNCTIONARRAY_SIZE ∧ (∃ k, s.m_size = 2 ^ k) ∧
      s.size ≤ s.max_size := by
  have hinv : RegInv s := by
    induction h with
    | init => exact inv_init
    | add s f _ ih => exact inv_add s f ih
    | remove s i _ ih => exact inv_remove s i ih
    | sort s _ ih => exact inv_sort s ih
    | offsetDelayBy s x _ ih => exact inv_offsetDelayBy s x ih
    | run s es k fuel tr _ ih => exact inv_run es fuel k s tr ih
  obtain ⟨h1, h2, h3, _⟩ := hinv
  exact ⟨Nat.zero_le _, h1, h2, h3, h1⟩

/-- Witness for C8 at the reachable state obtained by one `add`. -/
theorem C8_reachable_invariant_witness :
    0 ≤ (Async.init.add cbZero).curr_size ∧
    (Async.init.add cbZero).curr_size ≤ (Async.init.add cbZero).m_size ∧
    (Async.init.add cbZero).m_size ≤ MAX_FUNCTIONARRAY_SIZE ∧
    (∃ k, (Async.init.add cbZero).m_size = 2 ^ k) ∧
    (Async.init.add cbZero).size ≤ (Async.init.add cbZero).max_size :=
  C8_reachable_invariant (Async.init.add cbZero)
    (Reachable.add Async.init cbZero Reachable.init)

/-- C2: the claim says that in the sleepy branch the engine decreases all
delays by the original head delay.  At the concrete scheduler `runEx`
with measured elapsed time `e = 100`: after head execution and re-sort
the head delay is 200, the branch `e < 200` is taken, and the code leaves
live delays `[100, 200]` (a decrease by `200 - 100 = 100`), not the
`[0, 100]` that a decrease by the head delay 200 would produce. -/
theorem C2_offset_counterexample :
    (execHead runEx).curr_size ≠ 0 ∧
    100 < delayAt (execHead runEx).tasks 0 ∧
    ((runStep runEx 100).1.tasks.map fun f => f.get_delay) = [100, 200] ∧
    ((execHead runEx).tasks.map fun f =>
        f.get_delay - delayAt (execHead runEx).tasks 0) = [0, 100] ∧
    ((runStep runEx 100).1.tasks.map fun f => f.get_delay)
      ≠ ((execHead runEx).tasks.map fun f =>
          f.get_delay - delayAt (execHead runEx).tasks 0) := by
  decide

/-- C2 (amended): in every iteration in which the registry is non-empty
after the head execution and re-sort and the elapsed time `e` is strictly
below the new head delay `d`, the engine sleeps for `d - e` and then
decreases every live task's delay by `d - e` (saturating at zero), not by
the original head delay and not by `e`. -/
theorem C2_sleep_offset_amended (s : Async CB) (e : Nat)
    (h0 : (execHead s).curr_size ≠ 0)
    (he : e < delayAt (execHead s).tasks 0) :
    (runStep s e).2 = some (delayAt (execHead s).tasks 0 - e) ∧
    (runStep s e).1
      = (execHead s).offsetDelayBy (delayAt (execHead s).tasks 0 - e) ∧
    ∀ i, i < (execHead s).curr_size → i < (execHead s).tasks.length →
      delayAt (runStep s e).1.tasks i
        = delayAt (execHead s).tasks i
            - (delayAt (execHead s).tasks 0 - e) := by
  have heq : runStep s e
      = ((execHead s).offsetDelayBy (delayAt (execHead s).tasks 0 - e),
         some (delayAt (execHead s).tasks 0 - e)) := by
    rw [runStep]
    dsimp only
    rw [if_neg h0, if_neg (by omega)]
  refine ⟨by rw [heq], by rw [heq], ?_⟩
  intro i hi hl
  rw [heq]
  exact offsetDelayBy_delayAt _ _ hi hl

/-- Witness for C2 (amended) at `runEx` with `e = 100`. -/
theorem C2_sleep_offset_amended_witness :
    (runStep runEx 100).2 = some (delayAt (execHead runEx).tasks 0 - 100) ∧
    delayAt (runStep runEx 100).1.tasks 0
      = delayAt (execHead runEx).tasks 0
          - (delayAt (execHead runEx).tasks 0 - 100) := by
  obtain ⟨a, _, c⟩ := C2_sleep_offset_amended runEx 100 (by decide) (by decide)
  exact ⟨a, c 0 (by decide) (by decide)⟩

/-- C3: starting `run_until_complete` with exactly one registered task
whose callback returns 500 on steps 1, 2, 3 and 0 on step 4, the loop
invokes the callback exactly four times with step values 1, 2, 3, 4 in
order (regardless of the measured elapsed times `es`) and terminates with
an empty registry. -/
theorem C3_scenario_four_steps (cb : CB) (d0 i0 : Nat)
    (h1 : cb 1 i0 = 500) (h2 : cb 2 i0 = 500) (h3 : cb 3 i0 = 500)
    (h4 : cb 4 i0 = 0) (es : Nat → Nat) (fuel : Nat) (hf : 4 ≤ fuel) :
    (run_until_complete es 0 fuel
        (Async.init.add { m_func := cb, delay_time_us := d0, id := i0 }) []).2
      = [1, 2, 3, 4] ∧
    (run_until_complete es 0 fuel
        (Async.init.add { m_func := cb, delay_time_us := d0, id := i0 }) []).1.size
      = 0 := by
  obtain ⟨m, rfl⟩ : ∃ m, fuel = m + 4 := ⟨fuel - 4, by omega⟩
  have u1 : cb 1 i0 % ULONG_MOD = 500 := by rw [h1]; norm_num [ULONG_MOD]
  have u2 : cb 2 i0 % ULONG_MOD = 500 := by rw [h2]; norm_num [ULONG_MOD]
  have u3 : cb 3 i0 % ULONG_MOD = 500 := by rw [h3]; norm_num [ULONG_MOD]
  have u4 : cb 4 i0 % ULONG_MOD = 0 := by rw [h4]; simp
  rw [show Async.init.add { m_func := cb, delay_time_us := d0, id := i0 }
      = ({ m_size := 1, curr_size := 1,
           tasks := [{ m_func := cb, delay_time_us := d0, id := i0 }] }
         : Async CB) from rfl]
  rw [show m + 4 = (m + 3) + 1 from rfl,
    run_unfold es 0 (m + 3) _ [] (by simp)]
  rw [runStep_single_again _ (es 0) 500 u1 (by norm_num)]
  simp only [function.getStep, List.nil_append]
  norm_num [ULONG_MOD]
  rw [show m + 3 = (m + 2) + 1 from rfl,
    run_unfold es 1 (m + 2) _ _ (by simp)]
  rw [runStep_single_again _ (es 1) 500 u2 (by norm_num)]
  simp only [function.getStep]
  norm_num [ULONG_MOD]
  rw [show m + 2 = (m + 1) + 1 from rfl,
    run_unfold es 2 (m + 1) _ _ (by simp)]
  rw [runStep_single_again _ (es 2) 500 u3 (by norm_num)]
  simp only [function.getStep]
  norm_num [ULONG_MOD]
  rw [show m + 1 = m + 1 from rfl, run_unfold es 3 m _ _ (by simp)]
  rw [runStep_single_done _ (es 3) u4]
  rw [run_terminal es 4 m _ _ rfl]
  exact ⟨rfl, rfl⟩

/-- Witness for C3: the concrete callback `cbScen` with a zero oracle and
fuel 4. -/
theorem C3_scenario_four_steps_witness :
    (run_until_complete (fun _ => 0) 0 4
        (Async.init.add { m_func := cbScen, delay_time_us := 0, id := 0 }) []).2
      = [1, 2, 3, 4] ∧
    (run_until_complete (fun _ => 0) 0 4
        (Async.init.add { m_func := cbScen, delay_time_us := 0, id := 0 }) []).1.size
      = 0 :=
  C3_scenario_four_steps cbScen 0 0 rfl rfl rfl rfl (fun _ => 0) 4 (by norm_num)
